import Mathlib

/-!
Verification development for the geocoordinate-viewer tile caching subsystem.

The definitions below are a shallow embedding of the JavaScript source:
  - `src/app.js` (class `TileCache`: `cacheTile`, `cacheTiles`, `downloadArea`,
    `generateTileUrls`, `latLngToTile`, `estimateTileCount`, `updateCacheInfo`,
    `clearCache`, `checkCacheSize`),
  - `src/service-worker.js` (`handleTileRequest`, `handleApiRequest`, the
    `activate` listener, and the cache-name constants).

Browser `fetch` is modelled by an oracle `String → Option Response` (`none`
models a thrown network error); the Cache API (`caches.open`, `cache.put`,
`cache.match`, `caches.delete`) is modelled by association lists inside a
`World` record that also carries a log of fetch attempts and the
`isDownloading` flag of the `TileCache` instance.  The Web-Mercator
projection `latLngToTile` is embedded over the reals (idealised arithmetic
in place of IEEE doubles).  JavaScript `String.prototype.replace` with a
string pattern replaces the first occurrence only; `replaceFirst` below
mirrors that.
-/

namespace GeoViewer

/-! ### JavaScript first-occurrence string replacement -/

/-- Character-list core of JavaScript `String.prototype.replace` with a string
pattern: replace the leftmost occurrence of `pattern`, leave the rest alone. -/
def replaceFirstAux : List Char → List Char → List Char → List Char
  | [], _, _ => []
  | c :: cs, pat, r =>
    if pat.isPrefixOf (c :: cs) then r ++ (c :: cs).drop pat.length
    else c :: replaceFirstAux cs pat r

/-- JavaScript `s.replace(pattern, repl)` for a string pattern. -/
def replaceFirst (s pat repl : String) : String :=
  ⟨replaceFirstAux s.data pat.data repl.data⟩

/-! ### Tile URL construction (app.js `generateTileUrls`, service-worker.js
`generateTileURLsForLocation`; both use the same template and the same
`.replace('{z}', z).replace('{x}', x).replace('{y}', y)` chain) -/

/-- The tile URL template of the imagery provider (path order `{z}/{y}/{x}`). -/
def tileBaseUrl : String :=
  "https://server.arcgisonline.com/ArcGIS/rest/services/World_Imagery/MapServer/tile/{z}/{y}/{x}"

/-- The template prefix up to and including `tile/`. -/
def tileUrlStem : String :=
  "https://server.arcgisonline.com/ArcGIS/rest/services/World_Imagery/MapServer/tile/"

/-- One tile URL, built exactly as in the source: substitute `{z}`, then
`{x}`, then `{y}` into the template. -/
def tileUrl (z : ℕ) (x y : ℤ) : String :=
  replaceFirst (replaceFirst (replaceFirst tileBaseUrl "{z}" (toString z)) "{x}" (toString x))
    "{y}" (toString y)

/-! ### Coordinate-to-tile projection (app.js `latLngToTile`; the identical
function is duplicated in service-worker.js) -/

/-- A bounding box as used by `generateTileUrls` (degrees). -/
structure BoundingBox where
  north : ℝ
  south : ℝ
  east : ℝ
  west : ℝ

/-- `latLngToTile(lat, lng, zoom)`: the Web-Mercator slippy-tile formula,
embedded over the reals.  The source performs no validation whatsoever: it is
a total function returning a pair of integers for every input, poles
included. -/
noncomputable def latLngToTile (lat lng : ℝ) (zoom : ℕ) : ℤ × ℤ :=
  (⌊(lng + 180) / 360 * 2 ^ zoom⌋,
   ⌊(1 - Real.log (Real.tan (lat * Real.pi / 180) + 1 / Real.cos (lat * Real.pi / 180))
       / Real.pi) / 2 * 2 ^ zoom⌋)

/-! ### Tile enumeration (app.js `generateTileUrls`, `estimateTileCount`) -/

/-- `for (let v = a; v <= b; v++)` over integers. -/
def intRange (a b : ℤ) : List ℤ :=
  (List.range (b + 1 - a).toNat).map fun (i : ℕ) => a + (i : ℤ)

/-- `for (let z = mn; z <= mx; z++)` over zoom levels. -/
def zoomRange (mn mx : ℕ) : List ℕ :=
  (List.range (mx + 1 - mn)).map fun i => mn + i

/-- The per-zoom x-range of `generateTileUrls`: min/max of the x tiles of the
box's two extreme corners. -/
noncomputable def cornerXRange (bounds : BoundingBox) (z : ℕ) : ℤ × ℤ :=
  let nwTile := latLngToTile bounds.north bounds.west z
  let seTile := latLngToTile bounds.south bounds.east z
  (min nwTile.1 seTile.1, max nwTile.1 seTile.1)

/-- The per-zoom y-range of `generateTileUrls`. -/
noncomputable def cornerYRange (bounds : BoundingBox) (z : ℕ) : ℤ × ℤ :=
  let nwTile := latLngToTile bounds.north bounds.west z
  let seTile := latLngToTile bounds.south bounds.east z
  (min nwTile.2 seTile.2, max nwTile.2 seTile.2)

/-- `generateTileUrls(bounds, minZoom, maxZoom)`: the triple loop of the
source, emitting one URL per (z, x, y). -/
noncomputable def generateTileUrls (bounds : BoundingBox) (minZoom maxZoom : ℕ) : List String :=
  (zoomRange minZoom maxZoom).flatMap fun z =>
    let nwTile := latLngToTile bounds.north bounds.west z
    let seTile := latLngToTile bounds.south bounds.east z
    (intRange (min nwTile.1 seTile.1) (max nwTile.1 seTile.1)).flatMap fun x =>
      (intRange (min nwTile.2 seTile.2) (max nwTile.2 seTile.2)).map fun y =>
        tileUrl z x y

/-- The same triple loop, emitting the underlying (z, x, y) triples instead of
the substituted URL strings. -/
noncomputable def generateTileTriples (bounds : BoundingBox) (minZoom maxZoom : ℕ) :
    List (ℕ × ℤ × ℤ) :=
  (zoomRange minZoom maxZoom).flatMap fun z =>
    let nwTile := latLngToTile bounds.north bounds.west z
    let seTile := latLngToTile bounds.south bounds.east z
    (intRange (min nwTile.1 seTile.1) (max nwTile.1 seTile.1)).flatMap fun x =>
      (intRange (min nwTile.2 seTile.2) (max nwTile.2 seTile.2)).map fun y =>
        (z, x, y)

/-- Strict lexicographic order on (zoom, x, y) triples: zoom ascending, then
x ascending, then y ascending. -/
def tripleLex (a b : ℕ × ℤ × ℤ) : Prop :=
  a.1 < b.1 ∨ (a.1 = b.1 ∧ (a.2.1 < b.2.1 ∨ (a.2.1 = b.2.1 ∧ a.2.2 < b.2.2)))

/-- `estimateTileCount(bounds, minZoom, maxZoom)`: per zoom,
`(|Δx| + 1) * (|Δy| + 1)`, summed — pure arithmetic, no list is built. -/
noncomputable def estimateTileCount (bounds : BoundingBox) (minZoom maxZoom : ℕ) : ℕ :=
  ((zoomRange minZoom maxZoom).map fun z =>
    let nwTile := latLngToTile bounds.north bounds.west z
    let seTile := latLngToTile bounds.south bounds.east z
    ((seTile.1 - nwTile.1).natAbs + 1) * ((seTile.2 - nwTile.2).natAbs + 1)).sum

/-! ### Store names (app.js `TileCache` constructor, service-worker.js
constants) -/

/-- `this.cacheName` of the `TileCache` instance in app.js. -/
def cacheName : String := "geocoordinate-tiles-v1"

/-- `this.staticCacheName` of the `TileCache` instance in app.js. -/
def staticCacheName : String := "geocoordinate-static-v1"

/-- `this.maxCacheSize` of the `TileCache` instance in app.js. -/
def maxCacheSize : ℕ := 500

/-- `CACHE_VERSION` in service-worker.js. -/
def CACHE_VERSION : String := "v1"

/-- `STATIC_CACHE` in service-worker.js. -/
def STATIC_CACHE : String := "geocoordinate-static-" ++ CACHE_VERSION

/-- `TILE_CACHE` in service-worker.js. -/
def TILE_CACHE : String := "geocoordinate-tiles-" ++ CACHE_VERSION

/-- `DYNAMIC_CACHE` in service-worker.js. -/
def DYNAMIC_CACHE : String := "geocoordinate-dynamic-" ++ CACHE_VERSION

/-! ### The Cache API and network model -/

/-- An HTTP response: the fields of a browser `Response` that the source
reads (`ok`, `status`, `statusText`, headers, body). -/
structure Response where
  ok : Bool
  status : ℕ
  statusText : String
  headers : List (String × String)
  body : String
deriving DecidableEq

/-- `new Response(body, init)` with a status and headers: `ok` is true
exactly for a 2xx status. -/
def mkResponse (status : ℕ) (statusText : String) (headers : List (String × String))
    (body : String) : Response :=
  { ok := status / 100 == 2, status := status, statusText := statusText,
    headers := headers, body := body }

/-- One named cache: an association list from request URL to stored response. -/
abbrev Store : Type := List (String × Response)

/-- The `CacheStorage` of the browser: named caches. -/
abbrev CacheMap : Type := List (String × Store)

/-- Look a named cache up. -/
def storeLookup : CacheMap → String → Option Store
  | [], _ => none
  | (n, s) :: rest, name => if n == name then some s else storeLookup rest name

/-- `caches.open(name)`: idempotent, creates an empty cache when absent. -/
def cachesOpen (m : CacheMap) (name : String) : CacheMap :=
  match storeLookup m name with
  | some _ => m
  | none => m ++ [(name, [])]

/-- `cache.match(key)` within a store: first binding of the key. -/
def entryLookup : Store → String → Option Response
  | [], _ => none
  | (k, v) :: rest, key => if k == key then some v else entryLookup rest key

/-- `cache.put(key, response)` within a store: overwrite (last-write-wins),
append when fresh. -/
def putEntry : Store → String → Response → Store
  | [], key, r => [(key, r)]
  | (k, v) :: rest, key, r =>
    if k == key then (key, r) :: rest else (k, v) :: putEntry rest key r

/-- `cache.put` on the cache of the given name (no-op when the cache is
absent; every call site opens the cache first). -/
def cachePut : CacheMap → String → String → Response → CacheMap
  | [], _, _, _ => []
  | (n, s) :: rest, name, key, r =>
    if n == name then (n, putEntry s key r) :: rest
    else (n, s) :: cachePut rest name key r

/-- `caches.open(name)` followed by `cache.match(key)`, as a read. -/
def cacheMatch (m : CacheMap) (name key : String) : Option Response :=
  match storeLookup m name with
  | none => none
  | some s => entryLookup s key

/-- `caches.delete(name)`. -/
def cachesDelete : CacheMap → String → CacheMap
  | [], _ => []
  | (n, s) :: rest, name =>
    if n == name then cachesDelete rest name else (n, s) :: cachesDelete rest name

/-- The mutable world: the named caches, a log of every fetch attempt, and
the `isDownloading` flag of the `TileCache` instance. -/
structure World where
  caches : CacheMap
  fetchLog : List String
  isDownloading : Bool

/-- The network, as seen by `fetch`: `none` models a thrown network error,
`some r` a settled response (success or HTTP error status). -/
abbrev FetchOracle : Type := String → Option Response

/-- One `fetch(url)` call: records the attempt and returns the outcome. -/
def doFetch (oracle : FetchOracle) (w : World) (url : String) : Option Response × World :=
  (oracle url, { w with fetchLog := w.fetchLog ++ [url] })

/-! ### app.js `TileCache` operations -/

/-- `cacheTile(url)`: open the tile cache, fetch; on an ok response put and
return true, otherwise (non-ok or thrown) return false. -/
def cacheTile (oracle : FetchOracle) (w : World) (url : String) : Bool × World :=
  let w1 := { w with caches := cachesOpen w.caches cacheName }
  let fw := doFetch oracle w1 url
  match fw.1 with
  | none => (false, fw.2)
  | some r =>
    if r.ok then (true, { fw.2 with caches := cachePut fw.2.caches cacheName url r })
    else (false, fw.2)

/-- The `for (const url of urls)` loop of `cacheTiles`: fetch each URL, put
the ok responses, and increment `completed` after every attempt. -/
def cacheTilesLoop (oracle : FetchOracle) (w : World) (urls : List String)
    (completed : ℕ) : ℕ × World :=
  match urls with
  | [] => (completed, w)
  | url :: rest =>
    let fw := doFetch oracle w url
    let w2 :=
      match fw.1 with
      | none => fw.2
      | some r =>
        if r.ok then { fw.2 with caches := cachePut fw.2.caches cacheName url r }
        else fw.2
    cacheTilesLoop oracle w2 rest (completed + 1)

/-- `cacheTiles(urls)`: open the tile cache once, run the loop from
`completed = 0`, and return `completed`. -/
def cacheTiles (oracle : FetchOracle) (w : World) (urls : List String) : ℕ × World :=
  let w1 := { w with caches := cachesOpen w.caches cacheName }
  cacheTilesLoop oracle w1 urls 0

/-- `downloadArea(bounds, minZoom, maxZoom)`: set `isDownloading`, generate
the URL list, run `cacheTiles`, clear `isDownloading`, return the count. -/
noncomputable def downloadArea (oracle : FetchOracle) (w : World) (bounds : BoundingBox)
    (minZoom maxZoom : ℕ) : ℕ × World :=
  let w1 := { w with isDownloading := true }
  let urls := generateTileUrls bounds minZoom maxZoom
  let cw := cacheTiles oracle w1 urls
  (cw.1, { cw.2 with isDownloading := false })

/-- `updateCacheInfo()`: open the tile cache and count its keys (a read; the
count only feeds the DOM). -/
def updateCacheInfo (w : World) : ℕ × World :=
  let caches := cachesOpen w.caches cacheName
  (((storeLookup caches cacheName).map List.length).getD 0, { w with caches := caches })

/-- `clearCache()`: `caches.delete(this.cacheName)`. -/
def clearCache (w : World) : World :=
  { w with caches := cachesDelete w.caches cacheName }

/-- `checkCacheSize()`: read the count and at most log a warning when it
exceeds `maxCacheSize` — no eviction of any kind. -/
def checkCacheSize (w : World) : World :=
  (updateCacheInfo w).2

/-! ### service-worker.js request routing and lifecycle -/

/-- The `new Response('Tile not available offline', …)` of the offline
branch of `handleTileRequest`. -/
def tileOffline404 : Response :=
  mkResponse 404 "Tile not cached" [] "Tile not available offline"

/-- The `new Response('Error loading tile', { status: 500 })` of the catch
branch of `handleTileRequest`. -/
def tileError500 : Response :=
  mkResponse 500 "" [] "Error loading tile"

/-- The 503 JSON response of the offline-miss branch of `handleApiRequest`. -/
def apiOffline503 : Response :=
  mkResponse 503 "" [("Content-Type", "application/json")]
    "\x7b\"error\":\"Offline - data not cached\"\x7d"

/-- The 500 JSON response of the catch branch of `handleApiRequest`. -/
def apiError500 : Response :=
  mkResponse 500 "" [("Content-Type", "application/json")]
    "\x7b\"error\":\"Request failed\"\x7d"

/-- `handleTileRequest(request)`: cache-first against `TILE_CACHE`; on a miss
fetch if online (caching ok responses), else answer 404; a thrown fetch is
caught and answered 500. -/
def handleTileRequest (online : Bool) (oracle : FetchOracle) (w : World)
    (url : String) : Response × World :=
  let w1 := { w with caches := cachesOpen w.caches TILE_CACHE }
  match cacheMatch w1.caches TILE_CACHE url with
  | some r => (r, w1)
  | none =>
    if online then
      let fw := doFetch oracle w1 url
      match fw.1 with
      | none => (tileError500, fw.2)
      | some r =>
        if r.ok then (r, { fw.2 with caches := cachePut fw.2.caches TILE_CACHE url r })
        else (r, fw.2)
    else
      (tileOffline404, w1)

/-- `handleApiRequest(request)`: when online, fetch (caching ok responses in
`DYNAMIC_CACHE`) and return the network response; a thrown fetch is caught
and answered 500 without touching the store.  Only when offline does it
consult `DYNAMIC_CACHE`, answering 503 on a miss. -/
def handleApiRequest (online : Bool) (oracle : FetchOracle) (w : World)
    (url : String) : Response × World :=
  if online then
    let fw := doFetch oracle w url
    match fw.1 with
    | none => (apiError500, fw.2)
    | some r =>
      if r.ok then
        let m := cachesOpen fw.2.caches DYNAMIC_CACHE
        (r, { fw.2 with caches := cachePut m DYNAMIC_CACHE url r })
      else (r, fw.2)
  else
    let w1 := { w with caches := cachesOpen w.caches DYNAMIC_CACHE }
    match cacheMatch w1.caches DYNAMIC_CACHE url with
    | some r => (r, w1)
    | none => (apiOffline503, w1)

/-- The `activate` listener: enumerate all cache names and delete every cache
whose name is none of `STATIC_CACHE`, `TILE_CACHE`, `DYNAMIC_CACHE`. -/
def activateCleanup (w : World) : World :=
  { w with caches := w.caches.filter fun p =>
      p.1 == STATIC_CACHE || p.1 == TILE_CACHE || p.1 == DYNAMIC_CACHE }

/-- The number of entries of the tile cache (`updateCacheInfo`'s
`keys.length`, read off a world directly). -/
def cachedTileCount (w : World) : ℕ :=
  ((storeLookup w.caches cacheName).map List.length).getD 0

/-! ## Lemmas about the store model -/

theorem storeLookup_append_left {m : CacheMap} {name : String} {s : Store}
    (h : storeLookup m name = some s) (m' : CacheMap) :
    storeLookup (m ++ m') name = some s := by
  induction m with
  | nil => simp [storeLookup] at h
  | cons p rest ih =>
    obtain ⟨n, st⟩ := p
    by_cases hn : n = name
    · simp [storeLookup, hn] at h ⊢; exact h
    · simp [storeLookup, hn] at h ⊢; exact ih h

theorem storeLookup_append_none {m : CacheMap} {name : String}
    (h : storeLookup m name = none) (m' : CacheMap) :
    storeLookup (m ++ m') name = storeLookup m' name := by
  induction m with
  | nil => simp
  | cons p rest ih =>
    obtain ⟨n, st⟩ := p
    by_cases hn : n = name
    · simp [storeLookup, hn] at h
    · simp [storeLookup, hn] at h ⊢; exact ih h

theorem storeLookup_cachesOpen_self (m : CacheMap) (n : String) :
    storeLookup (cachesOpen m n) n = some ((storeLookup m n).getD []) := by
  unfold cachesOpen
  cases h : storeLookup m n with
  | some s => simp [h]
  | none => rw [storeLookup_append_none h]; simp [storeLookup]

theorem storeLookup_cachesOpen_ne {m : CacheMap} {n n' : String} (h : n' ≠ n) :
    storeLookup (cachesOpen m n) n' = storeLookup m n' := by
  unfold cachesOpen
  cases hm : storeLookup m n with
  | some s => rfl
  | none =>
    cases hm' : storeLookup m n' with
    | some s => exact storeLookup_append_left hm' _
    | none => rw [storeLookup_append_none hm']; simp [storeLookup, Ne.symm h]

theorem entryLookup_putEntry_self (s : Store) (k : String) (r : Response) :
    entryLookup (putEntry s k r) k = some r := by
  induction s with
  | nil => simp [putEntry, entryLookup]
  | cons p rest ih =>
    obtain ⟨k', v⟩ := p
    by_cases hk : k' = k
    · simp [putEntry, entryLookup, hk]
    · simp [putEntry, entryLookup, hk, ih]

theorem entryLookup_putEntry_ne (s : Store) {k k' : String} (h : k' ≠ k) (r : Response) :
    entryLookup (putEntry s k r) k' = entryLookup s k' := by
  induction s with
  | nil => simp [putEntry, entryLookup, Ne.symm h]
  | cons p rest ih =>
    obtain ⟨k₀, v⟩ := p
    by_cases hk : k₀ = k
    · subst hk; simp [putEntry, entryLookup, Ne.symm h]
    · by_cases hk' : k₀ = k'
      · subst hk'; simp [putEntry, entryLookup, hk]
      · simp [putEntry, entryLookup, hk, hk', ih]

theorem length_putEntry_fresh {s : Store} {k : String} (h : entryLookup s k = none)
    (r : Response) : (putEntry s k r).length = s.length + 1 := by
  induction s with
  | nil => simp [putEntry]
  | cons p rest ih =>
    obtain ⟨k', v⟩ := p
    by_cases hk : k' = k
    · simp [entryLookup, hk] at h
    · simp [entryLookup, hk] at h
      simp [putEntry, hk, ih h]

theorem storeLookup_cachePut_self (m : CacheMap) (n k : String) (r : Response) :
    storeLookup (cachePut m n k r) n = (storeLookup m n).map fun s => putEntry s k r := by
  induction m with
  | nil => simp [cachePut, storeLookup]
  | cons p rest ih =>
    obtain ⟨n', s⟩ := p
    by_cases hn : n' = n
    · simp [cachePut, storeLookup, hn]
    · simp [cachePut, storeLookup, hn, ih]

theorem storeLookup_cachePut_ne (m : CacheMap) {n n' : String} (h : n' ≠ n)
    (k : String) (r : Response) :
    storeLookup (cachePut m n k r) n' = storeLookup m n' := by
  induction m with
  | nil => simp [cachePut]
  | cons p rest ih =>
    obtain ⟨n₀, s⟩ := p
    by_cases hn : n₀ = n
    · subst hn; simp [cachePut, storeLookup, Ne.symm h]
    · by_cases hn' : n₀ = n'
      · subst hn'; simp [cachePut, storeLookup, hn]
      · simp [cachePut, storeLookup, hn, hn', ih]

theorem cacheMatch_cachesOpen (m : CacheMap) (n name key : String) :
    cacheMatch (cachesOpen m n) name key = cacheMatch m name key := by
  unfold cacheMatch
  by_cases h : name = n
  · subst h
    rw [storeLookup_cachesOpen_self]
    cases hm : storeLookup m name with
    | some s => simp
    | none => simp [entryLookup]
  · rw [storeLookup_cachesOpen_ne h]

theorem storeLookup_cachesDelete_self (m : CacheMap) (n : String) :
    storeLookup (cachesDelete m n) n = none := by
  induction m with
  | nil => simp [cachesDelete, storeLookup]
  | cons p rest ih =>
    obtain ⟨n', s⟩ := p
    by_cases hn : n' = n
    · simp [cachesDelete, hn, ih]
    · simp [cachesDelete, storeLookup, hn, ih]

theorem cacheTilesLoop_fst (urls : List String) (oracle : FetchOracle) (w : World)
    (c : ℕ) : (cacheTilesLoop oracle w urls c).1 = c + urls.length := by
  induction urls generalizing w c with
  | nil => simp [cacheTilesLoop]
  | cons u rest ih => simp [cacheTilesLoop, ih]; omega

theorem cacheMatch_cachePut_preserves {m : CacheMap} {n k : String}
    (h : (cacheMatch m n k).isSome) (u : String) (r : Response) :
    (cacheMatch (cachePut m n u r) n k).isSome := by
  unfold cacheMatch at h ⊢
  rw [storeLookup_cachePut_self]
  cases hs : storeLookup m n with
  | none => rw [hs] at h; simp at h
  | some s =>
    rw [hs] at h
    simp only [Option.map_some']
    by_cases hk : k = u
    · subst hk; simp [entryLookup_putEntry_self]
    · rw [entryLookup_putEntry_ne s hk]; exact h

theorem cacheTilesLoop_preserves (urls : List String) (oracle : FetchOracle)
    (w : World) (c : ℕ) {k : String} (h : (cacheMatch w.caches cacheName k).isSome) :
    (cacheMatch (cacheTilesLoop oracle w urls c).2.caches cacheName k).isSome := by
  induction urls generalizing w c with
  | nil => exact h
  | cons u rest ih =>
    simp only [cacheTilesLoop, doFetch]
    cases hr : oracle u with
    | none => exact ih _ _ h
    | some r =>
      by_cases hok : r.ok
      · simp only [hok, if_true]
        exact ih _ _ (cacheMatch_cachePut_preserves h u r)
      · simp only [hok, if_false]
        exact ih _ _ h

theorem cachedTileCount_open (w : World) :
    cachedTileCount { w with caches := cachesOpen w.caches cacheName } = cachedTileCount w := by
  unfold cachedTileCount
  rw [storeLookup_cachesOpen_self]
  cases h : storeLookup w.caches cacheName <;> simp [h]

theorem cacheTilesLoop_count (urls : List String) (oracle : FetchOracle) (w : World)
    (c : ℕ) (hnodup : urls.Nodup)
    (hfresh : ∀ u ∈ urls, cacheMatch w.caches cacheName u = none)
    (hok : ∀ u ∈ urls, ∃ r, oracle u = some r ∧ r.ok = true)
    (hpresent : (storeLookup w.caches cacheName).isSome) :
    cachedTileCount (cacheTilesLoop oracle w urls c).2 = cachedTileCount w + urls.length := by
  induction urls generalizing w c with
  | nil => simp [cacheTilesLoop]
  | cons u rest ih =>
    obtain ⟨r, hr, hrok⟩ := hok u (List.mem_cons_self u rest)
    obtain ⟨s, hs⟩ := Option.isSome_iff_exists.mp hpresent
    have hentry : entryLookup s u = none := by
      have := hfresh u (List.mem_cons_self u rest)
      unfold cacheMatch at this
      rwa [hs] at this
    simp only [cacheTilesLoop, doFetch, hr, hrok, if_true]
    have hput : storeLookup (cachePut w.caches cacheName u r) cacheName
        = some (putEntry s u r) := by
      rw [storeLookup_cachePut_self, hs]; rfl
    have hcount : cachedTileCount
        { w with caches := cachePut w.caches cacheName u r,
                 fetchLog := w.fetchLog ++ [u] }
        = cachedTileCount w + 1 := by
      unfold cachedTileCount
      simp only [hput, hs, Option.map_some, Option.getD_some]
      exact length_putEntry_fresh hentry r
    rw [ih _ _ hnodup.of_cons ?freshRest ?okRest ?presentRest, hcount]
    case freshRest =>
      intro v hv
      have hvu : v ≠ u := by
        intro hh; subst hh; exact (List.nodup_cons.mp hnodup).1 hv
      unfold cacheMatch
      simp only [hput]
      rw [entryLookup_putEntry_ne s hvu]
      have := hfresh v (List.mem_cons_of_mem u hv)
      unfold cacheMatch at this
      rwa [hs] at this
    case okRest => exact fun v hv => hok v (List.mem_cons_of_mem u hv)
    case presentRest => simp [hput]
    simp only [List.length_cons]
    omega

theorem mem_intRange {a b v : ℤ} : v ∈ intRange a b ↔ a ≤ v ∧ v ≤ b := by
  unfold intRange
  constructor
  · intro hv
    obtain ⟨i, hi, rfl⟩ := List.mem_map.mp hv
    have := List.mem_range.mp hi
    omega
  · intro hv
    exact List.mem_map.mpr ⟨(v - a).toNat, List.mem_range.mpr (by omega), by omega⟩

theorem mem_zoomRange {mn mx z : ℕ} : z ∈ zoomRange mn mx ↔ mn ≤ z ∧ z ≤ mx := by
  unfold zoomRange
  constructor
  · intro hv
    obtain ⟨i, hi, rfl⟩ := List.mem_map.mp hv
    have := List.mem_range.mp hi
    omega
  · intro hv
    exact List.mem_map.mpr ⟨z - mn, List.mem_range.mpr (by omega), by omega⟩

theorem pairwise_lt_intRange (a b : ℤ) : (intRange a b).Pairwise (· < ·) := by
  unfold intRange
  refine List.Pairwise.map _ (fun i j hij => ?_) (List.pairwise_lt_range _)
  omega

theorem pairwise_lt_zoomRange (mn mx : ℕ) : (zoomRange mn mx).Pairwise (· < ·) := by
  unfold zoomRange
  refine List.Pairwise.map _ (fun i j hij => ?_) (List.pairwise_lt_range _)
  omega

theorem length_intRange (a b : ℤ) : (intRange a b).length = (b + 1 - a).toNat := by
  simp [intRange]

theorem sum_map_const_nat {α : Type} (l : List α) (c : ℕ) :
    (l.map fun _ => c).sum = l.length * c := by
  induction l with
  | nil => simp
  | cons a t ih => simp [ih]; ring

theorem toNat_range_abs (p q : ℤ) : (max p q + 1 - min p q).toNat = (q - p).natAbs + 1 := by
  rcases le_total p q with h | h
  · rw [max_eq_right h, min_eq_left h]; omega
  · rw [max_eq_left h, min_eq_right h]; omega

theorem estimateTileCount_eq_length_all (bounds : BoundingBox) (mn mx : ℕ) :
    estimateTileCount bounds mn mx = (generateTileUrls bounds mn mx).length := by
  unfold estimateTileCount generateTileUrls
  rw [List.length_flatMap]
  congr 1
  refine List.map_congr_left fun z _ => ?_
  simp only [List.length_flatMap, Function.comp_def, List.length_map]
  rw [sum_map_const_nat, length_intRange, length_intRange, toNat_range_abs, toNat_range_abs]

theorem tripleLex_ne {a b : ℕ × ℤ × ℤ} (h : tripleLex a b) : a ≠ b := by
  rintro rfl
  rcases h with h | ⟨_, h | ⟨_, h⟩⟩ <;> exact lt_irrefl _ h

theorem pairwise_tripleLex_flatMap (zs : List ℕ) (hz : zs.Pairwise (· < ·))
    (xlo xhi ylo yhi : ℕ → ℤ) :
    (zs.flatMap fun z => (intRange (xlo z) (xhi z)).flatMap fun x =>
      (intRange (ylo z) (yhi z)).map fun y => (z, x, y)).Pairwise tripleLex := by
  rw [List.pairwise_flatMap]
  refine ⟨fun z hzmem => ?_, ?_⟩
  · rw [List.pairwise_flatMap]
    refine ⟨fun x hx => ?_, ?_⟩
    · exact List.Pairwise.map _
        (fun y1 y2 h => Or.inr ⟨rfl, Or.inr ⟨rfl, h⟩⟩) (pairwise_lt_intRange _ _)
    · refine List.Pairwise.imp ?_ (pairwise_lt_intRange (xlo z) (xhi z))
      intro x1 x2 h12 t1 ht1 t2 ht2
      simp only [List.mem_map] at ht1 ht2
      obtain ⟨y1, hy1, rfl⟩ := ht1
      obtain ⟨y2, hy2, rfl⟩ := ht2
      exact Or.inr ⟨rfl, Or.inl h12⟩
  · refine List.Pairwise.imp ?_ hz
    intro z1 z2 h12 t1 ht1 t2 ht2
    simp only [List.mem_flatMap, List.mem_map] at ht1 ht2
    obtain ⟨x1, hx1, y1, hy1, rfl⟩ := ht1
    obtain ⟨x2, hx2, y2, hy2, rfl⟩ := ht2
    exact Or.inl h12

theorem digitChar_ne_brace (n : ℕ) : Nat.digitChar n ≠ '{' := by
  by_cases h : n < 16
  · interval_cases n <;> decide
  · unfold Nat.digitChar
    repeat rw [if_neg (by omega)]
    decide

theorem toDigitsCore_ne_brace : ∀ (f n : ℕ) (acc : List Char),
    (∀ c ∈ acc, c ≠ '{') → ∀ c ∈ Nat.toDigitsCore 10 f n acc, c ≠ '{' := by
  intro f
  induction f with
  | zero => intro n acc hacc c hc; exact hacc c hc
  | succ f ih =>
    intro n acc hacc c hc
    simp only [Nat.toDigitsCore] at hc
    split at hc
    · rcases List.mem_cons.mp hc with rfl | h
      · exact digitChar_ne_brace _
      · exact hacc c h
    · refine ih (n / 10) _ ?_ c hc
      intro c' hc'
      rcases List.mem_cons.mp hc' with rfl | h
      · exact digitChar_ne_brace _
      · exact hacc c' h

theorem brace_not_mem_natToString (n : ℕ) : '{' ∉ (toString n).data := by
  intro h
  exact toDigitsCore_ne_brace (n + 1) n [] (by simp) '{' h rfl

theorem brace_not_mem_intToString (x : ℤ) : '{' ∉ (toString x).data := by
  cases x with
  | ofNat m => exact brace_not_mem_natToString m
  | negSucc m =>
    intro h
    rw [show (toString (Int.negSucc m)) = "-" ++ toString (m + 1) from rfl,
      String.data_append] at h
    rcases List.mem_append.mp h with h | h
    · simp at h
    · exact brace_not_mem_natToString (m + 1) h

theorem isPrefixOf_append_self (p b : List Char) : (p.isPrefixOf (p ++ b)) = true := by
  induction p with
  | nil => simp
  | cons c p ih => simp [List.isPrefixOf, ih]

theorem replaceFirstAux_first_occ (a p b r : List Char) (hp : p ≠ [])
    (hcond : ∀ a₂, a₂ ≠ [] → a₂ <:+ a → (p.isPrefixOf (a₂ ++ (p ++ b))) = false) :
    replaceFirstAux (a ++ (p ++ b)) p r = a ++ (r ++ b) := by
  induction a with
  | nil =>
    obtain ⟨c, p', rfl⟩ := List.exists_cons_of_ne_nil hp
    simp only [List.nil_append, List.cons_append]
    rw [replaceFirstAux]
    rw [← List.cons_append, isPrefixOf_append_self]
    simp only [if_true]
    rw [List.drop_left]
  | cons c a' ih =>
    simp only [List.cons_append]
    rw [replaceFirstAux]
    rw [← List.cons_append]
    rw [hcond (c :: a') (by simp) (List.suffix_refl _)]
    simp only [Bool.false_eq_true, if_false]
    congr 1
    refine ih fun a₂ h1 h2 => hcond a₂ h1 (h2.trans (List.suffix_cons c a'))

theorem noEarly_of_not_mem {c0 : Char} {p' a : List Char} (h : c0 ∉ a) (t : List Char) :
    ∀ a₂, a₂ ≠ [] → a₂ <:+ a → (((c0 :: p').isPrefixOf (a₂ ++ t))) = false := by
  intro a₂ h1 h2
  obtain ⟨c, a₂', rfl⟩ := List.exists_cons_of_ne_nil h1
  have hc : c0 ≠ c := by
    intro hh
    exact h (hh ▸ List.IsSuffix.mem (List.mem_cons_self c a₂') h2)
  simp [List.isPrefixOf, hc]

theorem noEarly_append {c0 : Char} {p' : List Char} (u : List Char) {v t : List Char}
    (hu : c0 ∉ u)
    (hv : ∀ a₂, a₂ ≠ [] → a₂ <:+ v → (((c0 :: p').isPrefixOf (a₂ ++ t))) = false) :
    ∀ a₂, a₂ ≠ [] → a₂ <:+ u ++ v → (((c0 :: p').isPrefixOf (a₂ ++ t))) = false := by
  induction u with
  | nil => intro a₂ h1 h2; exact hv a₂ h1 (by simpa using h2)
  | cons c u' ih =>
    intro a₂ h1 h2
    rw [List.cons_append] at h2
    rcases List.suffix_cons_iff.mp h2 with rfl | h3
    · have hc : c0 ≠ c := fun hh => hu (hh ▸ List.mem_cons_self c u')
      rw [List.cons_append]
      simp [List.isPrefixOf, hc]
    · exact ih (fun hh => hu (List.mem_cons_of_mem c hh)) a₂ h1 h3

theorem noEarly_ybrace (t : List Char) :
    ∀ a₂ : List Char, a₂ ≠ [] → a₂ <:+ ['{', 'y', '}', '/'] →
      ((['{', 'x', '}'] : List Char).isPrefixOf (a₂ ++ t)) = false := by
  intro a₂ h1 h2
  rcases List.suffix_cons_iff.mp h2 with rfl | h2
  · simp [List.isPrefixOf]
  rcases List.suffix_cons_iff.mp h2 with rfl | h2
  · simp [List.isPrefixOf]
  rcases List.suffix_cons_iff.mp h2 with rfl | h2
  · simp [List.isPrefixOf]
  rcases List.suffix_cons_iff.mp h2 with rfl | h2
  · simp [List.isPrefixOf]
  exact absurd (List.suffix_nil.mp h2) h1

theorem replaceFirst_data (s pat repl : String) :
    (replaceFirst s pat repl).data = replaceFirstAux s.data pat.data repl.data := rfl

/-! ## Claims -/

/-- Claim C8: every tile URL the system generates substitutes the template
path segments in the order z, then y, then x — for all tile coordinates and
zoom levels `tileUrl z x y` is literally `…/tile/` followed by z, y, x
separated by slashes, never z, x, y. -/
theorem tileUrl_zyx_order (z : ℕ) (x y : ℤ) :
    tileUrl z x y = tileUrlStem ++ toString z ++ "/" ++ toString y ++ "/" ++ toString x := by
  apply String.ext
  have hP : '{' ∉ tileUrlStem.data := by decide
  have hdz := brace_not_mem_natToString z
  have hdx := brace_not_mem_intToString x
  have hdy := brace_not_mem_intToString y
  have e0 : tileBaseUrl.data
      = tileUrlStem.data
        ++ (['{', 'z', '}'] ++ (['/'] ++ (['{', 'y', '}'] ++ (['/'] ++ ['{', 'x', '}'])))) := by
    decide
  have h1 : replaceFirstAux tileBaseUrl.data ("{z}".data) (toString z).data
      = tileUrlStem.data ++ ((toString z).data
          ++ (['/'] ++ (['{', 'y', '}'] ++ (['/'] ++ ['{', 'x', '}'])))) := by
    rw [e0]
    exact replaceFirstAux_first_occ _ _ _ _ (by decide) (noEarly_of_not_mem hP _)
  have e2 : tileUrlStem.data ++ ((toString z).data
        ++ (['/'] ++ (['{', 'y', '}'] ++ (['/'] ++ ['{', 'x', '}']))))
      = (tileUrlStem.data ++ ((toString z).data ++ (['/'] ++ (['{', 'y', '}'] ++ ['/']))))
        ++ (['{', 'x', '}'] ++ []) := by
    simp [List.append_assoc]
  have hybrace : ∀ a₂ : List Char, a₂ ≠ [] → a₂ <:+ (['{', 'y', '}'] ++ ['/']) →
      ((['{', 'x', '}'] : List Char).isPrefixOf (a₂ ++ (['{', 'x', '}'] ++ []))) = false := by
    have hv : (['{', 'y', '}'] ++ ['/'] : List Char) = ['{', 'y', '}', '/'] := by decide
    rw [hv]
    exact noEarly_ybrace _
  have h2 : replaceFirstAux
        (tileUrlStem.data ++ ((toString z).data
          ++ (['/'] ++ (['{', 'y', '}'] ++ (['/'] ++ ['{', 'x', '}']))))) ("{x}".data)
        (toString x).data
      = (tileUrlStem.data ++ ((toString z).data ++ (['/'] ++ (['{', 'y', '}'] ++ ['/']))))
        ++ ((toString x).data ++ []) := by
    rw [e2]
    refine replaceFirstAux_first_occ _ _ _ _ (by decide) ?_
    exact noEarly_append _ hP (noEarly_append _ hdz (noEarly_append _ (by decide) hybrace))
  have e3 : (tileUrlStem.data ++ ((toString z).data ++ (['/'] ++ (['{', 'y', '}'] ++ ['/']))))
        ++ ((toString x).data ++ [])
      = (tileUrlStem.data ++ ((toString z).data ++ ['/']))
        ++ (['{', 'y', '}'] ++ (['/'] ++ ((toString x).data ++ []))) := by
    simp [List.append_assoc]
  have h3 : replaceFirstAux
        ((tileUrlStem.data ++ ((toString z).data ++ (['/'] ++ (['{', 'y', '}'] ++ ['/']))))
          ++ ((toString x).data ++ [])) ("{y}".data) (toString y).data
      = (tileUrlStem.data ++ ((toString z).data ++ ['/']))
        ++ ((toString y).data ++ (['/'] ++ ((toString x).data ++ []))) := by
    rw [e3]
    refine replaceFirstAux_first_occ _ _ _ _ (by decide) ?_
    exact noEarly_append _ hP (noEarly_append _ hdz (noEarly_of_not_mem (by decide) _))
  simp only [tileUrl, replaceFirst_data]
  rw [h1, h2, h3]
  have hslash : ("/" : String).data = ['/'] := rfl
  simp [String.data_append, hslash, List.append_assoc]

/-- Claim C6: `generateTileUrls` is the substitution image of a triple
enumeration that (i) is ordered lexicographically zoom-ascending, then
x-ascending, then y-ascending, (ii) has no duplicates, and (iii) contains a
triple (z, x, y) exactly when z lies in the zoom range and x and y lie
between the min and max of the corresponding coordinates of the tiles of the
box's two extreme corners, inclusive — exactly one TileRequest per such
triple, deterministically ordered. -/
theorem generateTileUrls_enumeration (bounds : BoundingBox) (minZoom maxZoom : ℕ) :
    generateTileUrls bounds minZoom maxZoom
      = (generateTileTriples bounds minZoom maxZoom).map (fun t => tileUrl t.1 t.2.1 t.2.2) ∧
    (generateTileTriples bounds minZoom maxZoom).Pairwise tripleLex ∧
    (generateTileTriples bounds minZoom maxZoom).Nodup ∧
    (∀ z x y, (z, x, y) ∈ generateTileTriples bounds minZoom maxZoom ↔
      (minZoom ≤ z ∧ z ≤ maxZoom ∧
       (cornerXRange bounds z).1 ≤ x ∧ x ≤ (cornerXRange bounds z).2 ∧
       (cornerYRange bounds z).1 ≤ y ∧ y ≤ (cornerYRange bounds z).2)) := by
  have hpair : (generateTileTriples bounds minZoom maxZoom).Pairwise tripleLex := by
    unfold generateTileTriples
    exact pairwise_tripleLex_flatMap (zoomRange minZoom maxZoom)
      (pairwise_lt_zoomRange minZoom maxZoom) _ _ _ _
  refine ⟨?_, hpair, List.Pairwise.imp (fun h => tripleLex_ne h) hpair, ?_⟩
  · unfold generateTileUrls generateTileTriples
    simp only [List.map_flatMap, List.map_map, Function.comp_def]
  · intro z x y
    unfold generateTileTriples cornerXRange cornerYRange
    simp only [List.mem_flatMap, List.mem_map, mem_intRange, mem_zoomRange,
      Prod.mk.injEq]
    constructor
    · rintro ⟨z', hz', x', hx', y', hy', rfl, rfl, rfl⟩
      exact ⟨hz'.1, hz'.2, hx'.1, hx'.2, hy'.1, hy'.2⟩
    · rintro ⟨h1, h2, h3, h4, h5, h6⟩
      exact ⟨z, ⟨h1, h2⟩, x, ⟨h3, h4⟩, y, ⟨h5, h6⟩, rfl, rfl, rfl⟩

/-- Claim C3, counterexample: applied at latitude +90 (and at −90) the
projection silently returns a numeric tile coordinate — at longitude 0 and
zoom 0 its x-component is the number 0 — rather than failing with an
`InvalidCoordinate` error; `latLngToTile` has no validation and no error
path at all. -/
theorem latLngToTile_pole_returns_number :
    (latLngToTile 90 0 0).1 = 0 ∧ (latLngToTile (-90) 0 0).1 = 0 := by
  have h : ((0 : ℝ) + 180) / 360 * 2 ^ (0 : ℕ) = 1 / 2 := by norm_num
  constructor <;>
    · show ⌊((0 : ℝ) + 180) / 360 * 2 ^ (0 : ℕ)⌋ = 0
      rw [h, Int.floor_eq_zero_iff]
      constructor <;> norm_num

/-- Claim C3, amended: for every zoom level and longitude, `latLngToTile`
at latitude ±90 performs no validation and silently returns a numeric tile
coordinate, treating the poles like any other latitude (its x-component
agrees with the one at every other latitude and equals the Web-Mercator
formula); no `InvalidCoordinate` failure exists in the code. -/
theorem latLngToTile_pole_no_validation (lat lng : ℝ) (z : ℕ) :
    (latLngToTile 90 lng z).1 = (latLngToTile lat lng z).1 ∧
    (latLngToTile (-90) lng z).1 = (latLngToTile lat lng z).1 ∧
    (latLngToTile 90 lng z).1 = ⌊(lng + 180) / 360 * 2 ^ z⌋ :=
  ⟨rfl, rfl, rfl⟩

/-- Claim C7: for every bounding box and every single zoom level z,
`estimateTileCount(box, z, z)` equals the length of the list produced by
`generateTileUrls(box, z, z)` (the estimate is pure per-zoom arithmetic and
never builds the list). -/
theorem estimateTileCount_matches_urls (bounds : BoundingBox) (z : ℕ) :
    estimateTileCount bounds z z = (generateTileUrls bounds z z).length :=
  estimateTileCount_eq_length_all bounds z z

/-- Claim C1, counterexample: with a single URL whose fetch throws,
`cacheTiles` returns 1 although nothing was persisted to the tile store —
the returned count is the number of attempts, not of successes. -/
theorem cacheTiles_count_not_persisted :
    (cacheTiles (fun _ => none) ⟨[], [], false⟩ ["u1"]).1 = 1 ∧
    cacheMatch (cacheTiles (fun _ => none) ⟨[], [], false⟩ ["u1"]).2.caches cacheName "u1"
      = none ∧
    cachedTileCount (cacheTiles (fun _ => none) ⟨[], [], false⟩ ["u1"]).2 = 0 := by
  decide

/-- Claim C1, amended: for every list of tile URLs, `cacheTiles` (and
`downloadArea`, which returns its result) returns the number of fetch
attempts — the length of the URL list — counting failed and non-success
attempts as well. -/
theorem cacheTiles_returns_attempted_count (oracle : FetchOracle) (w : World)
    (urls : List String) (bounds : BoundingBox) (minZoom maxZoom : ℕ) :
    (cacheTiles oracle w urls).1 = urls.length ∧
    (downloadArea oracle w bounds minZoom maxZoom).1
      = (generateTileUrls bounds minZoom maxZoom).length := by
  constructor
  · simpa [cacheTiles] using cacheTilesLoop_fst urls oracle _ 0
  · simpa [downloadArea, cacheTiles] using
      cacheTilesLoop_fst (generateTileUrls bounds minZoom maxZoom) oracle _ 0

/-- Claim C2: `downloadArea` never consults the `isDownloading` flag — a
call starting with the flag set behaves exactly like one starting with it
clear (the job runs, no `DownloadAlreadyInProgress` error exists anywhere in
the code), and the flag is unconditionally reset at the end. -/
theorem downloadArea_ignores_isDownloading (oracle : FetchOracle) (w : World)
    (b : Bool) (bounds : BoundingBox) (minZoom maxZoom : ℕ) :
    downloadArea oracle { w with isDownloading := b } bounds minZoom maxZoom
      = downloadArea oracle w bounds minZoom maxZoom ∧
    (downloadArea oracle { w with isDownloading := true } bounds minZoom maxZoom).2.isDownloading
      = false := by
  exact ⟨rfl, rfl⟩

/-- Claim C4, counterexample: with the network up but the fetch throwing,
and the requested URL present in the dynamic store, `handleApiRequest`
returns the 500 `Request failed` JSON error — it neither falls back to the
dynamic store nor returns the 503 payload. -/
theorem handleApiRequest_error_despite_cached :
    cacheMatch
        ([(DYNAMIC_CACHE,
          [("https://nominatim.openstreetmap.org/reverse?lat=1&lon=2",
            mkResponse 200 "" [] "cached-address")])] : CacheMap)
        DYNAMIC_CACHE "https://nominatim.openstreetmap.org/reverse?lat=1&lon=2"
      = some (mkResponse 200 "" [] "cached-address") ∧
    (handleApiRequest true (fun _ => none)
        ⟨[(DYNAMIC_CACHE,
          [("https://nominatim.openstreetmap.org/reverse?lat=1&lon=2",
            mkResponse 200 "" [] "cached-address")])], [], false⟩
        "https://nominatim.openstreetmap.org/reverse?lat=1&lon=2").1 = apiError500 ∧
    apiError500.status = 500 ∧ apiError500 ≠ mkResponse 200 "" [] "cached-address" := by
  decide

/-- Claim C4, amended: `handleApiRequest` consults the dynamic store only
when the network is flagged unreachable (`navigator.onLine` false): offline
it returns the cached entry on a hit and the 503 JSON `DataUnavailable`
payload on a miss, performing no fetch; online, a thrown fetch is answered
by the 500 JSON error without any store fallback or store write, and a
settled non-ok network response is returned as-is, without store fallback
or store write. -/
theorem handleApiRequest_offline_fallback (oracle : FetchOracle) (w : World)
    (url : String) (r : Response) (hr : r.ok = false) :
    (handleApiRequest false oracle w url).1
      = (cacheMatch w.caches DYNAMIC_CACHE url).getD apiOffline503 ∧
    (handleApiRequest false oracle w url).2.fetchLog = w.fetchLog ∧
    (handleApiRequest true (fun _ => none) w url).1 = apiError500 ∧
    (handleApiRequest true (fun _ => none) w url).2.caches = w.caches ∧
    (handleApiRequest true (fun _ => some r) w url).1 = r ∧
    (handleApiRequest true (fun _ => some r) w url).2.caches = w.caches := by
  refine ⟨?_, ?_, rfl, rfl, ?_, ?_⟩
  · cases hm : cacheMatch w.caches DYNAMIC_CACHE url <;>
      simp [handleApiRequest, cacheMatch_cachesOpen, hm]
  · cases hm : cacheMatch w.caches DYNAMIC_CACHE url <;>
      simp [handleApiRequest, cacheMatch_cachesOpen, hm]
  · simp [handleApiRequest, doFetch, hr]
  · simp [handleApiRequest, doFetch, hr]

/-- Claim C4, amended, witness: a concrete online request whose fetch
settles with a 404 gets that 404 back unchanged, with the stores untouched. -/
theorem handleApiRequest_offline_fallback_witness :
    (handleApiRequest true (fun _ => some (mkResponse 404 "Not Found" [] "nf"))
        ⟨[], [], false⟩ "u").1 = mkResponse 404 "Not Found" [] "nf" ∧
    (handleApiRequest true (fun _ => some (mkResponse 404 "Not Found" [] "nf"))
        ⟨[], [], false⟩ "u").2.caches = (⟨[], [], false⟩ : World).caches :=
  ⟨(handleApiRequest_offline_fallback (fun _ => none) ⟨[], [], false⟩ "u"
      (mkResponse 404 "Not Found" [] "nf") rfl).2.2.2.2.1,
   (handleApiRequest_offline_fallback (fun _ => none) ⟨[], [], false⟩ "u"
      (mkResponse 404 "Not Found" [] "nf") rfl).2.2.2.2.2⟩

/-- Claim C5: after `cacheTile(url)` succeeds (the fetch settled with an ok
response, which was put into the tile store), a `handleTileRequest` lookup
for the same URL returns the stored response from the cache and performs no
network fetch (the fetch log is unchanged), whatever the network state or
oracle of the second call. -/
theorem cacheTile_roundtrip (oracle oracle2 : FetchOracle) (w : World)
    (url : String) (r : Response) (online : Bool)
    (hfetch : oracle url = some r) (hok : r.ok = true) :
    (cacheTile oracle w url).1 = true ∧
    (handleTileRequest online oracle2 (cacheTile oracle w url).2 url).1 = r ∧
    (handleTileRequest online oracle2 (cacheTile oracle w url).2 url).2.fetchLog
      = (cacheTile oracle w url).2.fetchLog := by
  have hTC : TILE_CACHE = cacheName := by decide
  have hct : cacheTile oracle w url
      = (true, World.mk (cachePut (cachesOpen w.caches cacheName) cacheName url r)
          (w.fetchLog ++ [url]) w.isDownloading) := by
    simp [cacheTile, doFetch, hfetch, hok]
  have hmatch : cacheMatch (cacheTile oracle w url).2.caches TILE_CACHE url = some r := by
    rw [hct, hTC]
    unfold cacheMatch
    rw [storeLookup_cachePut_self, storeLookup_cachesOpen_self]
    simp [entryLookup_putEntry_self]
  refine ⟨by rw [hct], ?_, ?_⟩ <;>
    simp [handleTileRequest, cacheMatch_cachesOpen, hmatch]

/-- Claim C5, witness: a concrete successful `cacheTile` followed by a
router lookup with a dead network returns the stored response. -/
theorem cacheTile_roundtrip_witness :
    (cacheTile (fun _ => some (mkResponse 200 "OK" [] "tile-bytes")) ⟨[], [], false⟩ "t").1
      = true ∧
    (handleTileRequest false (fun _ => none)
        (cacheTile (fun _ => some (mkResponse 200 "OK" [] "tile-bytes")) ⟨[], [], false⟩
          "t").2 "t").1
      = mkResponse 200 "OK" [] "tile-bytes" :=
  ⟨(cacheTile_roundtrip (fun _ => some (mkResponse 200 "OK" [] "tile-bytes")) (fun _ => none)
      ⟨[], [], false⟩ "t" (mkResponse 200 "OK" [] "tile-bytes") false rfl rfl).1,
   (cacheTile_roundtrip (fun _ => some (mkResponse 200 "OK" [] "tile-bytes")) (fun _ => none)
      ⟨[], [], false⟩ "t" (mkResponse 200 "OK" [] "tile-bytes") false rfl rfl).2.1⟩

/-- Claim C10: the cache-size limit is 500 but is never enforced —
`checkCacheSize` changes no lookup; `cacheTiles` never removes an entry;
only `clearCache` empties the tile store; and a batch of fresh, distinct,
all-succeeding URLs grows the tile store by exactly its length, with no
bound. -/
theorem maxCacheSize_never_enforced (oracle : FetchOracle) (w : World)
    (urls : List String) (k name key : String) :
    maxCacheSize = 500 ∧
    cacheMatch (checkCacheSize w).caches name key = cacheMatch w.caches name key ∧
    ((cacheMatch w.caches cacheName k).isSome →
      (cacheMatch (cacheTiles oracle w urls).2.caches cacheName k).isSome) ∧
    cacheMatch (clearCache w).caches cacheName k = none ∧
    (urls.Nodup → (∀ u ∈ urls, cacheMatch w.caches cacheName u = none) →
      (∀ u ∈ urls, ∃ r, oracle u = some r ∧ r.ok = true) →
      cachedTileCount (cacheTiles oracle w urls).2 = cachedTileCount w + urls.length) := by
  refine ⟨rfl, ?_, ?_, ?_, ?_⟩
  · simp [checkCacheSize, updateCacheInfo, cacheMatch_cachesOpen]
  · intro h
    refine cacheTilesLoop_preserves urls oracle _ 0 ?_
    simpa [cacheMatch_cachesOpen] using h
  · unfold clearCache cacheMatch
    simp [storeLookup_cachesDelete_self]
  · intro hnodup hfresh hok
    unfold cacheTiles
    rw [cacheTilesLoop_count urls oracle _ 0 hnodup ?fresh hok ?present]
    case fresh =>
      intro u hu
      simpa [cacheMatch_cachesOpen] using hfresh u hu
    case present => simp [storeLookup_cachesOpen_self]
    exact congrArg (· + urls.length) (cachedTileCount_open w)

/-- Claim C10, witness: two fresh distinct all-ok URLs grow an empty tile
store to exactly two entries. -/
theorem maxCacheSize_never_enforced_witness :
    cachedTileCount
        (cacheTiles (fun _ => some (mkResponse 200 "OK" [] "B")) ⟨[], [], false⟩
          ["a", "b"]).2
      = cachedTileCount ⟨[], [], false⟩ + 2 :=
  (maxCacheSize_never_enforced (fun _ => some (mkResponse 200 "OK" [] "B")) ⟨[], [], false⟩
      ["a", "b"] "a" "n" "k").2.2.2.2 (by decide) (by decide)
    (fun u _ => ⟨mkResponse 200 "OK" [] "B", rfl, rfl⟩)

/-- Claim C9: after the `activate` cleanup, looking up any cache whose name
is none of the current generation's static, tile, and dynamic names yields
nothing — every stale-generation cache is gone. -/
theorem activate_purges_stale_stores (w : World) (name : String)
    (h1 : name ≠ STATIC_CACHE) (h2 : name ≠ TILE_CACHE) (h3 : name ≠ DYNAMIC_CACHE) :
    storeLookup (activateCleanup w).caches name = none := by
  obtain ⟨m, log, fl⟩ := w
  simp only [activateCleanup]
  induction m with
  | nil => simp [storeLookup]
  | cons p rest ih =>
    obtain ⟨n, s⟩ := p
    by_cases hs : (n == STATIC_CACHE || n == TILE_CACHE || n == DYNAMIC_CACHE) = true
    · have hne : n ≠ name := by
        simp only [Bool.or_eq_true, beq_iff_eq] at hs
        rcases hs with (h | h) | h <;> (subst h; intro hh)
        · exact h1 hh.symm
        · exact h2 hh.symm
        · exact h3 hh.symm
      simpa [List.filter_cons, hs, storeLookup, hne] using ih
    · simpa [List.filter_cons, hs] using ih

/-- Claim C9, witness: a concrete previous-generation tile cache
(`geocoordinate-tiles-v0`) is absent after activation. -/
theorem activate_purges_stale_stores_witness :
    storeLookup (activateCleanup ⟨[("geocoordinate-tiles-v0", [])], [], false⟩).caches
      "geocoordinate-tiles-v0" = none :=
  activate_purges_stale_stores ⟨[("geocoordinate-tiles-v0", [])], [], false⟩
    "geocoordinate-tiles-v0" (by decide) (by decide) (by decide)

end GeoViewer
